import Mathlib

/-!
Verification of the Meeting Store Service (`src/main.py`), a FastAPI CRUD
service persisting a collection of meeting records as one JSON document.

Shallow embedding:
* a Python JSON value stored in a meeting field is `Val`;
* a Python `dict` (a meeting record, or a request body after `model_dump`)
  is an association list `Dict` with Python `dict` semantics: lookup takes
  the first entry for a key (Python dicts have unique keys), and
  `dict.update` replaces the value of an existing key in place and appends
  new keys at the end, in the order of the update dict;
* the persisted collection (`data['meetings']`) is a `List Dict`; each
  handler is a pure function from the collection (and the request data) to
  its result, where returning the new collection models the
  `write_data` call and an error result models raising `HTTPException`
  before any write;
* `read_data` is embedded over the raw file content, with `json.loads`
  abstracted as a `parse` function parameter (the JSON parser is library
  code, not part of this repository).
-/

namespace MeetingApi

/-- A JSON value held in a meeting field: `None`, a string, a boolean, a
number, or a list of strings (the `participants` shape). Field values are
only compared for equality by the service, never inspected, so this
carrier is sufficient for every operation in `src/main.py`. -/
inductive Val where
  | vnull : Val
  | vstr : String → Val
  | vbool : Bool → Val
  | vnat : Nat → Val
  | vlist : List String → Val
deriving DecidableEq, Repr

/-- A Python `dict` with `Val` values, as an association list in key
insertion order. -/
abbrev Dict := List (String × Val)

/-- `d.get(key)`: first value stored under `key`, `none` when absent
(Python returns `None`; the service only ever compares the result). -/
def dictGet : Dict → String → Option Val
  | [], _ => none
  | (k, v) :: rest, key => if k = key then some v else dictGet rest key

/-- `key in d`. -/
def dictHas (d : Dict) (key : String) : Bool :=
  (dictGet d key).isSome

/-- `d[key] = v`: replace the value of `key` in place when present,
otherwise append the new entry (Python dict assignment). -/
def dictSet (d : Dict) (key : String) (v : Val) : Dict :=
  if dictHas d key then
    d.map (fun p => if p.1 = key then (key, v) else p)
  else
    d ++ [(key, v)]

/-- `d.update(u)`: assign every entry of `u` into `d`, in order. -/
def dictMerge (d : Dict) (u : Dict) : Dict :=
  u.foldl (fun acc p => dictSet acc p.1 p.2) d

/-- The comparison `meeting.get('id') == meeting_id` from the handlers:
the record's `id` field must be the string `mid`. -/
def idMatches (m : Dict) (mid : String) : Bool :=
  decide (dictGet m "id" = some (Val.vstr mid))

/-- The persisted document `{"meetings": [...]}` (spec section 3); the
shape `read_data` yields and `write_data` stores. -/
structure Doc where
  meetings : List Dict
deriving DecidableEq, Repr

/-- `read_data` (src/main.py lines 84-99) over the raw file content:
blank content gives `{"meetings": []}`, a `json.loads` failure
(`JSONDecodeError`) gives `{"meetings": []}`, a successful parse is
returned as is. `parse` abstracts `json.loads`; `parse content = none`
is a decode failure. -/
def read_data (parse : String → Option Doc) (content : String) : Doc :=
  if content.trim = "" then ⟨[]⟩
  else
    match parse content with
    | some d => d
    | none => ⟨[]⟩

/-- Serialization of a handler return value through the declared
`response_model=MeetingsData`: only the `meetings` field is emitted. -/
def meetingsDataSerialize (d : Doc) : Doc :=
  ⟨d.meetings⟩

/-- `GET /api/meetings` (src/main.py lines 141-149): read the store and
return it through the `MeetingsData` response model. -/
def get_all_meetings (parse : String → Option Doc) (content : String) : Doc :=
  meetingsDataSerialize (read_data parse content)

/-- The body of `create_meeting` (src/main.py lines 159-180) after
validation: `body` is `meeting.model_dump()` and `newId` the fresh
`str(uuid.uuid4())`; the handler sets `new_meeting['id'] = meeting_id`,
appends the record and persists. Result: the new collection and the
record placed in the success envelope. -/
def create_handler (store : List Dict) (body : Dict) (newId : String) :
    List Dict × Dict :=
  let new_meeting := dictSet body "id" (Val.vstr newId)
  (store ++ [new_meeting], new_meeting)

/-- `POST /api/meetings` including the `MeetingCreate` validation layer:
a body without a string `title` is rejected (FastAPI responds 422 before
the handler runs and nothing is written), otherwise `create_handler`
runs. -/
def create_meeting (store : List Dict) (body : Dict) (newId : String) :
    Option (List Dict × Dict) :=
  match dictGet body "title" with
  | some (Val.vstr _) => some (create_handler store body newId)
  | _ => none

/-- `GET /api/meetings/{meeting_id}` (src/main.py lines 191-209): linear
scan, first record whose `id` equals the path id; `none` models the 404
`HTTPException`. -/
def get_meeting_by_id : List Dict → String → Option Dict
  | [], _ => none
  | m :: rest, mid =>
    if idMatches m mid then some m else get_meeting_by_id rest mid

/-- `PUT /api/meetings/{meeting_id}` (src/main.py lines 212-254): scan for
the first record whose `id` matches; merge
`meeting_update.model_dump(exclude_unset=True)` — exactly the keys present
in the request body, here `u` — into it with `dict.update`, persist, and
return the updated collection together with the updated record (the
envelope's `data`). `none` models the 404 raised when no record matches,
in which case nothing is written. -/
def update_meeting : List Dict → String → Dict → Option (List Dict × Dict)
  | [], _, _ => none
  | m :: rest, mid, u =>
    if idMatches m mid then
      some (dictMerge m u :: rest, dictMerge m u)
    else
      match update_meeting rest mid u with
      | none => none
      | some (rest2, r) => some (m :: rest2, r)

/-- `DELETE /api/meetings/{meeting_id}` (src/main.py lines 257-292): keep
every record whose `id` differs from the path id; when the length is
unchanged nothing matched, the 404 is raised before `write_data` and the
store is untouched (`none`); otherwise the filtered collection is
persisted. -/
def delete_meeting (ms : List Dict) (mid : String) : Option (List Dict) :=
  let filtered := ms.filter (fun m => ! idMatches m mid)
  if filtered.length = ms.length then none else some filtered

/-- The `MeetingsData` request model (src/main.py lines 65-67): a body
with the required `meetings` key, a plain list of dicts. -/
structure MeetingsData where
  meetings : List Dict
deriving DecidableEq, Repr

/-- Outcome of the bulk endpoint: the persisted collection afterwards and
the HTTP status returned. -/
structure BulkOutcome where
  store : List Dict
  status : Nat
deriving DecidableEq, Repr

/-- `hasattr(data, 'meetings')` for a validated `MeetingsData` instance:
always true, since the model declares the field. -/
def hasattrMeetings (_ : MeetingsData) : Bool :=
  true

/-- The body of `save_all_meetings` (src/main.py lines 297-330): the
guard `if not hasattr(data, 'meetings')` would answer 400, but it can
never fire on a validated `MeetingsData`; the handler dumps the model and
overwrites the whole store, answering 200. -/
def save_all_meetings (store : List Dict) (data : MeetingsData) :
    BulkOutcome :=
  if hasattrMeetings data = false then ⟨store, 400⟩
  else ⟨data.meetings, 200⟩

/-- FastAPI request validation for `MeetingsData`: `body` is the value of
the `meetings` key of the raw JSON body, `none` when the key is absent.
A missing required field is rejected by FastAPI with a 422 validation
error before the handler runs. -/
def validateBulkBody (body : Option (List Dict)) : Option MeetingsData :=
  match body with
  | none => none
  | some ms => some ⟨ms⟩

/-- `POST /api/meetings/bulk` as served: validation then handler. When
validation fails the store is untouched and the status is 422. -/
def bulk_endpoint (store : List Dict) (body : Option (List Dict)) :
    BulkOutcome :=
  match validateBulkBody body with
  | none => ⟨store, 422⟩
  | some d => save_all_meetings store d

/-! Lemmas about the `Dict` operations. -/

theorem dictGet_append_none (a b : Dict) (k : String) (h : dictGet a k = none) :
    dictGet (a ++ b) k = dictGet b k := by
  induction a with
  | nil => simp
  | cons p t ih =>
    obtain ⟨k1, v1⟩ := p
    by_cases hk : k1 = k
    · simp [dictGet, hk] at h
    · simp [dictGet, hk] at h ⊢
      exact ih h

theorem dictGet_append_some (a b : Dict) (k : String) (v : Val)
    (h : dictGet a k = some v) : dictGet (a ++ b) k = some v := by
  induction a with
  | nil => simp [dictGet] at h
  | cons p t ih =>
    obtain ⟨k1, v1⟩ := p
    by_cases hk : k1 = k
    · simp [dictGet, hk] at h
      simp [dictGet, hk, h]
    · simp [dictGet, hk] at h ⊢
      exact ih h

theorem dictHas_false_iff (d : Dict) (k : String) :
    dictHas d k = false ↔ dictGet d k = none := by
  unfold dictHas
  cases dictGet d k <;> simp

theorem dictGet_map_set_ne (d : Dict) (ks k : String) (v : Val) (h : ks ≠ k) :
    dictGet (d.map (fun p => if p.1 = ks then (ks, v) else p)) k = dictGet d k := by
  induction d with
  | nil => rfl
  | cons p t ih =>
    obtain ⟨k1, v1⟩ := p
    rw [List.map_cons]
    by_cases h1 : k1 = ks
    · rw [if_pos (show (k1, v1).1 = ks from h1)]
      have hk1 : ¬ k1 = k := by rw [h1]; exact h
      simp [dictGet, h, hk1, ih]
    · rw [if_neg (show ¬ (k1, v1).1 = ks from h1)]
      simp [dictGet, ih]

theorem dictGet_map_set_self (d : Dict) (k : String) (v : Val)
    (h : dictHas d k = true) :
    dictGet (d.map (fun p => if p.1 = k then (k, v) else p)) k = some v := by
  induction d with
  | nil => simp [dictHas, dictGet] at h
  | cons p t ih =>
    obtain ⟨k1, v1⟩ := p
    rw [List.map_cons]
    by_cases h1 : k1 = k
    · rw [if_pos (show (k1, v1).1 = k from h1)]
      simp [dictGet]
    · have ht : dictHas t k = true := by
        simpa [dictHas, dictGet, h1] using h
      rw [if_neg (show ¬ (k1, v1).1 = k from h1)]
      simp [dictGet, h1, ih ht]

theorem dictGet_dictSet_self (d : Dict) (k : String) (v : Val) :
    dictGet (dictSet d k v) k = some v := by
  unfold dictSet
  by_cases h : dictHas d k = true
  · simp only [h, if_true]
    exact dictGet_map_set_self d k v h
  · have hf : dictHas d k = false := by
      cases hx : dictHas d k
      · rfl
      · exact absurd hx h
    have hn : dictGet d k = none := (dictHas_false_iff d k).mp hf
    simp only [hf, Bool.false_eq_true, if_false]
    rw [dictGet_append_none d _ k hn]
    simp [dictGet]

theorem dictGet_dictSet_ne (d : Dict) (ks k : String) (v : Val) (h : ks ≠ k) :
    dictGet (dictSet d ks v) k = dictGet d k := by
  unfold dictSet
  by_cases hh : dictHas d ks = true
  · simp only [hh, if_true]
    exact dictGet_map_set_ne d ks k v h
  · have hf : dictHas d ks = false := by
      cases hx : dictHas d ks
      · rfl
      · exact absurd hx hh
    simp only [hf, Bool.false_eq_true, if_false]
    cases hv : dictGet d k with
    | some w => exact dictGet_append_some d _ k w hv
    | none =>
      rw [dictGet_append_none d _ k hv]
      simp [dictGet, h]

theorem dictGet_dictMerge_none (u : Dict) :
    ∀ (d : Dict) (k : String), dictGet u k = none →
      dictGet (dictMerge d u) k = dictGet d k := by
  induction u with
  | nil =>
    intro d k _
    rfl
  | cons p t ih =>
    intro d k h
    obtain ⟨k1, v1⟩ := p
    by_cases h1 : k1 = k
    · simp [dictGet, h1] at h
    · have ht : dictGet t k = none := by simpa [dictGet, h1] using h
      have hstep : dictMerge d ((k1, v1) :: t) = dictMerge (dictSet d k1 v1) t := rfl
      rw [hstep, ih (dictSet d k1 v1) k ht, dictGet_dictSet_ne d k1 k v1 h1]

theorem dictHas_of_mem (d : Dict) (k : String) (w : Val) (h : (k, w) ∈ d) :
    dictHas d k = true := by
  induction d with
  | nil => simp at h
  | cons p t ih =>
    obtain ⟨k1, v1⟩ := p
    rcases List.mem_cons.mp h with h1 | h1
    · obtain ⟨e1, _⟩ := Prod.ext_iff.mp h1
      simp only [Prod.fst] at e1
      simp [dictHas, dictGet, e1.symm]
    · by_cases hk : k1 = k
      · simp [dictHas, dictGet, hk]
      · have := ih h1
        simpa [dictHas, dictGet, hk] using this

theorem dictSet_mem_value (d : Dict) (k : String) (v w : Val)
    (h : (k, w) ∈ dictSet d k v) : w = v := by
  unfold dictSet at h
  by_cases hh : dictHas d k = true
  · rw [if_pos hh] at h
    obtain ⟨p, hpd, hp⟩ := List.mem_map.mp h
    by_cases h1 : p.1 = k
    · rw [if_pos h1] at hp
      exact (Prod.ext_iff.mp hp).2.symm
    · rw [if_neg h1] at hp
      exact absurd (by rw [hp]) h1
  · have hf : dictHas d k = false := by
      cases hx : dictHas d k
      · rfl
      · exact absurd hx hh
    rw [if_neg (by simp [hf])] at h
    rcases List.mem_append.mp h with h1 | h1
    · exact absurd (dictHas_of_mem d k w h1) (by simp [hf])
    · exact (Prod.ext_iff.mp (List.mem_singleton.mp h1)).2

/-! Lemmas about the linear `id` scan. -/

theorem get_meeting_by_id_eq_none (ms : List Dict) (mid : String)
    (h : ∀ m ∈ ms, idMatches m mid = false) :
    get_meeting_by_id ms mid = none := by
  induction ms with
  | nil => rfl
  | cons m t ih =>
    have hm := h m (List.mem_cons_self m t)
    simp [get_meeting_by_id, hm]
    exact ih fun x hx => h x (List.mem_cons_of_mem m hx)

theorem get_meeting_by_id_append_last (store : List Dict) (rec : Dict)
    (mid : String) (hfresh : ∀ m ∈ store, idMatches m mid = false)
    (hrec : idMatches rec mid = true) :
    get_meeting_by_id (store ++ [rec]) mid = some rec := by
  induction store with
  | nil => simp [get_meeting_by_id, hrec]
  | cons m t ih =>
    have hm := hfresh m (List.mem_cons_self m t)
    simp [get_meeting_by_id, hm]
    exact ih fun x hx => hfresh x (List.mem_cons_of_mem m hx)

/-! The claims. -/

/-- Claim C1: for every valid create request (a body containing a string
`title`), creating a meeting and then fetching by the returned fresh `id`
yields exactly the record reported in the success envelope — same fields,
including the server-assigned `id`. The freshness hypothesis reflects the
spec's assumption that `str(uuid.uuid4())` never collides with a stored
`id`. -/
theorem create_then_get_roundtrip (store : List Dict) (body : Dict)
    (newId t : String)
    (htitle : dictGet body "title" = some (Val.vstr t))
    (hfresh : ∀ m ∈ store, idMatches m newId = false) :
    ∃ st2 rec, create_meeting store body newId = some (st2, rec) ∧
      get_meeting_by_id st2 newId = some rec := by
  refine ⟨store ++ [dictSet body "id" (Val.vstr newId)],
    dictSet body "id" (Val.vstr newId), ?_, ?_⟩
  · simp [create_meeting, htitle, create_handler]
  · apply get_meeting_by_id_append_last store _ newId hfresh
    simp [idMatches, dictGet_dictSet_self]

/-- Witness for C1 at a concrete input: empty store, body
`{"title": "standup"}`, fresh id `"id-1"`. -/
theorem create_then_get_roundtrip_witness :
    (dictGet [("title", Val.vstr "standup")] "title"
        = some (Val.vstr "standup")) ∧
    (∃ st2 rec,
      create_meeting [] [("title", Val.vstr "standup")] "id-1"
          = some (st2, rec) ∧
      get_meeting_by_id st2 "id-1" = some rec) :=
  ⟨by decide,
    create_then_get_roundtrip [] [("title", Val.vstr "standup")] "id-1"
      "standup" (by decide) (by decide)⟩

/-- Claim C6: blank (empty or whitespace-only) file content, and content
`json.loads` fails to parse, both make `read_data` answer
`{"meetings": []}` without surfacing a fault, and listing meetings over
such a file also answers `{"meetings": []}`. -/
theorem read_corrupt_returns_empty (parse : String → Option Doc)
    (content : String)
    (h : content.trim = "" ∨ parse content = none) :
    read_data parse content = ⟨[]⟩ ∧
    get_all_meetings parse content = ⟨[]⟩ := by
  have h1 : read_data parse content = ⟨[]⟩ := by
    unfold read_data
    rcases h with h | h
    · simp [h]
    · by_cases ht : content.trim = ""
      · simp [ht]
      · simp [ht, h]
  exact ⟨h1, by simp [get_all_meetings, meetingsDataSerialize, h1]⟩

/-- Witness for C6 at a concrete input: a parser that rejects the content
`"not json at all"`. -/
theorem read_corrupt_returns_empty_witness :
    ((fun _ : String => (none : Option Doc)) "not json at all" = none) ∧
    (read_data (fun _ : String => (none : Option Doc)) "not json at all"
        = ⟨[]⟩ ∧
      get_all_meetings (fun _ : String => (none : Option Doc))
          "not json at all" = ⟨[]⟩) :=
  ⟨rfl, read_corrupt_returns_empty (fun _ => none) "not json at all"
    (Or.inr rfl)⟩

/-- Claim C8: `GET /api/meetings` returns exactly the document produced by
`read_data`, the meetings list included verbatim — no filtering,
reordering, or reshaping happens between the read and the response. -/
theorem list_returns_read_verbatim (parse : String → Option Doc)
    (content : String) :
    get_all_meetings parse content = read_data parse content ∧
    (get_all_meetings parse content).meetings
      = (read_data parse content).meetings :=
  ⟨rfl, rfl⟩

/-- Claim C9: the record appended by `create_meeting` carries the fresh
server-generated `id`; the collection afterwards is the old collection
plus that record; and no entry of the record holds any other value under
the key `id`, so a client-supplied `id` is overwritten and never
stored. -/
theorem create_assigns_server_id (store : List Dict) (body : Dict)
    (newId : String) :
    dictGet (create_handler store body newId).2 "id"
        = some (Val.vstr newId) ∧
    (create_handler store body newId).1
        = store ++ [(create_handler store body newId).2] ∧
    (∀ v : Val, ("id", v) ∈ (create_handler store body newId).2 →
      v = Val.vstr newId) := by
  refine ⟨dictGet_dictSet_self body "id" (Val.vstr newId), rfl, ?_⟩
  intro v hv
  exact dictSet_mem_value body "id" (Val.vstr newId) v hv

/-- Claim C10: the update merge applies a client-supplied `id` key like
any other key: there are a stored collection, a path id and an update
body under which the updated record's stored `id` becomes the
client-supplied value, now equal to another record's `id` — id
immutability and id uniqueness are not preserved by `update_meeting`. -/
theorem update_can_change_id :
    ∃ (ms : List Dict) (mid : String) (u : Dict) (ms2 : List Dict)
      (r other : Dict) (cid : String),
      dictGet u "id" = some (Val.vstr cid) ∧
      mid ≠ cid ∧
      update_meeting ms mid u = some (ms2, r) ∧
      dictGet r "id" = some (Val.vstr cid) ∧
      other ∈ ms2 ∧ other ≠ r ∧
      dictGet other "id" = dictGet r "id" :=
  ⟨[[("id", Val.vstr "x"), ("title", Val.vstr "A")],
    [("id", Val.vstr "y"), ("title", Val.vstr "B")]],
   "x", [("id", Val.vstr "y")],
   [[("id", Val.vstr "y"), ("title", Val.vstr "A")],
    [("id", Val.vstr "y"), ("title", Val.vstr "B")]],
   [("id", Val.vstr "y"), ("title", Val.vstr "A")],
   [("id", Val.vstr "y"), ("title", Val.vstr "B")],
   "y", by decide, by decide, by decide, by decide, by decide, by decide,
   by decide⟩

/-- Claim C2: a successful update splits the collection at the first
record whose `id` matches; only that record changes, and it becomes the
`dict.update` merge of its old value with exactly the keys present in the
request body — every key absent from the request body keeps its previous
value. -/
theorem update_partial_merge (ms : List Dict) (mid : String) (u : Dict)
    (ms2 : List Dict) (r : Dict)
    (h : update_meeting ms mid u = some (ms2, r)) :
    ∃ pre m post,
      ms = pre ++ m :: post ∧
      (∀ x ∈ pre, idMatches x mid = false) ∧
      idMatches m mid = true ∧
      r = dictMerge m u ∧
      ms2 = pre ++ r :: post ∧
      (∀ k, dictGet u k = none → dictGet r k = dictGet m k) := by
  induction ms generalizing ms2 r with
  | nil => simp [update_meeting] at h
  | cons m t ih =>
    cases hc : idMatches m mid with
    | true =>
      rw [update_meeting, if_pos hc] at h
      injection h with h4
      injection h4 with h1 h2
      subst h1
      subst h2
      exact ⟨[], m, t, rfl, by simp, hc, rfl, rfl,
        fun k hk => dictGet_dictMerge_none u m k hk⟩
    | false =>
      rw [update_meeting, if_neg (by simp [hc])] at h
      cases hut : update_meeting t mid u with
      | none =>
        rw [hut] at h
        exact Option.noConfusion h
      | some pr =>
        obtain ⟨rest2, r0⟩ := pr
        rw [hut] at h
        have h3 : some (m :: rest2, r0) = some (ms2, r) := h
        injection h3 with h4
        injection h4 with h1 h2
        subst h1
        subst h2
        obtain ⟨pre, mm, post, e1, e2, e3, e4, e5, e6⟩ := ih rest2 r0 hut
        refine ⟨m :: pre, mm, post, ?_, ?_, e3, e4, ?_, e6⟩
        · rw [e1]
          rfl
        · intro x hx
          rcases List.mem_cons.mp hx with hx | hx
          · rw [hx]; exact hc
          · exact e2 x hx
        · rw [e5]
          rfl

/-- Witness for C2 at the spec's own example: updating the record
`{"id": "x", "title": "A", "agenda": "B"}` with body `{"title": "C"}`
yields `{"id": "x", "title": "C", "agenda": "B"}`. -/
theorem update_partial_merge_witness :
    (update_meeting
        [[("id", Val.vstr "x"), ("title", Val.vstr "A"),
          ("agenda", Val.vstr "B")]]
        "x" [("title", Val.vstr "C")]
      = some
        ([[("id", Val.vstr "x"), ("title", Val.vstr "C"),
           ("agenda", Val.vstr "B")]],
         [("id", Val.vstr "x"), ("title", Val.vstr "C"),
          ("agenda", Val.vstr "B")])) ∧
    (∃ pre m post,
      ([[("id", Val.vstr "x"), ("title", Val.vstr "A"),
         ("agenda", Val.vstr "B")]] : List Dict) = pre ++ m :: post ∧
      (∀ x ∈ pre, idMatches x "x" = false) ∧
      idMatches m "x" = true ∧
      ([("id", Val.vstr "x"), ("title", Val.vstr "C"),
        ("agenda", Val.vstr "B")] : Dict)
          = dictMerge m [("title", Val.vstr "C")] ∧
      ([[("id", Val.vstr "x"), ("title", Val.vstr "C"),
         ("agenda", Val.vstr "B")]] : List Dict)
          = pre ++
            [("id", Val.vstr "x"), ("title", Val.vstr "C"),
             ("agenda", Val.vstr "B")] :: post ∧
      (∀ k, dictGet [("title", Val.vstr "C")] k = none →
        dictGet
          [("id", Val.vstr "x"), ("title", Val.vstr "C"),
           ("agenda", Val.vstr "B")] k = dictGet m k)) :=
  ⟨by decide,
    update_partial_merge
      [[("id", Val.vstr "x"), ("title", Val.vstr "A"),
        ("agenda", Val.vstr "B")]]
      "x" [("title", Val.vstr "C")]
      [[("id", Val.vstr "x"), ("title", Val.vstr "C"),
        ("agenda", Val.vstr "B")]]
      [("id", Val.vstr "x"), ("title", Val.vstr "C"),
       ("agenda", Val.vstr "B")]
      (by decide)⟩

/-- Claim C3: the bulk endpoint with body `{"meetings": C}` overwrites
the whole persisted collection with `C` and answers 200; afterwards,
fetching the `id` of a previously stored meeting that does not occur in
`C` is a not-found fault. -/
theorem bulk_replace_overwrites (store ms : List Dict) (mid : String)
    (p : Dict) (_hp : p ∈ store) (_hpid : idMatches p mid = true)
    (hnot : ∀ c ∈ ms, idMatches c mid = false) :
    bulk_endpoint store (some ms) = ⟨ms, 200⟩ ∧
    get_meeting_by_id (bulk_endpoint store (some ms)).store mid = none := by
  have h1 : bulk_endpoint store (some ms) = ⟨ms, 200⟩ := rfl
  refine ⟨h1, ?_⟩
  rw [h1]
  exact get_meeting_by_id_eq_none ms mid hnot

/-- Witness for C3 at a concrete input: store holding meetings `a` and
`b`, bulk body `{"meetings": [{"id": "c"\x7d]}`, then fetching `a`. -/
theorem bulk_replace_overwrites_witness :
    (([("id", Val.vstr "a")] : Dict) ∈
        ([[("id", Val.vstr "a")], [("id", Val.vstr "b")]] : List Dict)) ∧
    (idMatches [("id", Val.vstr "a")] "a" = true) ∧
    (∀ c ∈ ([[("id", Val.vstr "c")]] : List Dict),
      idMatches c "a" = false) ∧
    (bulk_endpoint [[("id", Val.vstr "a")], [("id", Val.vstr "b")]]
          (some [[("id", Val.vstr "c")]])
        = ⟨[[("id", Val.vstr "c")]], 200⟩ ∧
      get_meeting_by_id
          (bulk_endpoint [[("id", Val.vstr "a")], [("id", Val.vstr "b")]]
            (some [[("id", Val.vstr "c")]])).store "a" = none) :=
  ⟨by decide, by decide, by decide,
    bulk_replace_overwrites
      [[("id", Val.vstr "a")], [("id", Val.vstr "b")]]
      [[("id", Val.vstr "c")]] "a" [("id", Val.vstr "a")]
      (by decide) (by decide) (by decide)⟩

/-- Every record kept by the delete filter keeps its multiplicity. -/
theorem count_filter_not_match (ms : List Dict) (mid : String) (m : Dict)
    (hm : idMatches m mid = false) :
    (ms.filter (fun x => ! idMatches x mid)).count m = ms.count m := by
  induction ms with
  | nil => rfl
  | cons a t ih =>
    cases ha : idMatches a mid with
    | true =>
      have hne : a ≠ m := fun e => by rw [e, hm] at ha; exact Bool.noConfusion ha
      simp [List.filter_cons, ha, List.count_cons, hne, ih]
    | false =>
      simp [List.filter_cons, ha, List.count_cons, ih]

/-- Claim C4: a successful delete removes every record whose `id` equals
the path id — the persisted collection is an order-preserving
subsequence of the old one, contains no matching record, and keeps every
non-matching record with its exact multiplicity. -/
theorem delete_removes_all_matches (ms : List Dict) (mid : String)
    (l : List Dict) (h : delete_meeting ms mid = some l) :
    l.Sublist ms ∧
    (∀ m ∈ l, idMatches m mid = false) ∧
    (∀ m : Dict, idMatches m mid = false → l.count m = ms.count m) := by
  have hl : l = ms.filter (fun x => ! idMatches x mid) := by
    unfold delete_meeting at h
    by_cases hlen :
        (ms.filter (fun x => ! idMatches x mid)).length = ms.length
    · rw [if_pos hlen] at h
      exact Option.noConfusion h
    · rw [if_neg hlen] at h
      exact (Option.some.inj h).symm
  subst hl
  refine ⟨List.filter_sublist ms, ?_, ?_⟩
  · intro m hmem
    have := (List.mem_filter.mp hmem).2
    simpa using this
  · intro m hm
    exact count_filter_not_match ms mid m hm

/-- Witness for C4 at a concrete input: two records with id `a` around
one with id `b`; deleting `a` removes both matches and keeps `b`. -/
theorem delete_removes_all_matches_witness :
    (delete_meeting
        [[("id", Val.vstr "a"), ("title", Val.vstr "1")],
         [("id", Val.vstr "b")],
         [("id", Val.vstr "a"), ("title", Val.vstr "2")]] "a"
      = some [[("id", Val.vstr "b")]]) ∧
    (([[("id", Val.vstr "b")]] : List Dict).Sublist
        [[("id", Val.vstr "a"), ("title", Val.vstr "1")],
         [("id", Val.vstr "b")],
         [("id", Val.vstr "a"), ("title", Val.vstr "2")]] ∧
      (∀ m ∈ ([[("id", Val.vstr "b")]] : List Dict),
        idMatches m "a" = false) ∧
      (∀ m : Dict, idMatches m "a" = false →
        ([[("id", Val.vstr "b")]] : List Dict).count m
          = ([[("id", Val.vstr "a"), ("title", Val.vstr "1")],
              [("id", Val.vstr "b")],
              [("id", Val.vstr "a"), ("title", Val.vstr "2")]] :
              List Dict).count m)) :=
  ⟨by decide,
    delete_removes_all_matches
      [[("id", Val.vstr "a"), ("title", Val.vstr "1")],
       [("id", Val.vstr "b")],
       [("id", Val.vstr "a"), ("title", Val.vstr "2")]] "a"
      [[("id", Val.vstr "b")]] (by decide)⟩

/-- Claim C5: when no record's `id` equals the path id, `delete_meeting`
answers the not-found fault (`none`), which the handler raises before
`write_data` — the persisted store is untouched. -/
theorem delete_absent_is_fault (ms : List Dict) (mid : String)
    (h : ∀ m ∈ ms, idMatches m mid = false) :
    delete_meeting ms mid = none := by
  have hfix : ms.filter (fun x => ! idMatches x mid) = ms := by
    apply List.filter_eq_self.mpr
    intro m hm
    simp [h m hm]
  simp [delete_meeting, hfix]

/-- Witness for C5 at a concrete input: deleting id `zz` from a store
holding only id `b`. -/
theorem delete_absent_is_fault_witness :
    (∀ m ∈ ([[("id", Val.vstr "b")]] : List Dict),
      idMatches m "zz" = false) ∧
    delete_meeting [[("id", Val.vstr "b")]] "zz" = none :=
  ⟨by decide,
    delete_absent_is_fault [[("id", Val.vstr "b")]] "zz" (by decide)⟩

/-- Counterexample to claim C7 as stated: a bulk request whose body lacks
the `meetings` key is rejected by the `MeetingsData` request validation
with status 422, not 400 — the handler's own 400 branch is guarded by
`not hasattr(data, 'meetings')`, which is false for every validated
`MeetingsData`, so no request can reach it. -/
theorem bulk_missing_meetings_not_400 :
    (bulk_endpoint [[("id", Val.vstr "a")]] none).status = 422 ∧
    ¬ (bulk_endpoint [[("id", Val.vstr "a")]] none).status = 400 ∧
    (bulk_endpoint [[("id", Val.vstr "a")]] none).store
      = [[("id", Val.vstr "a")]] := by
  decide

/-- Claim C7 amended: a bulk request whose body lacks the `meetings` key
fails with a client validation error — status 422 — and the persisted
store is left unchanged. -/
theorem bulk_missing_meetings_client_error (store : List Dict) :
    (bulk_endpoint store none).status = 422 ∧
    (bulk_endpoint store none).store = store :=
  ⟨rfl, rfl⟩

end MeetingApi
